import Mathlib

/-!
Shallow embedding of `fritz.py` (FritzBoxLogSaver): challenge-response
authentication (PBKDF2 / MD5 variants), event-log retrieval and filtering,
and the incremental CSV persister.  Bytes are modelled as natural numbers
below 256; machine words as naturals reduced modulo 2^32.
-/

namespace Fritz

/-! ## Word and byte helpers -/

/-- Reduce a natural number to a 32-bit word. -/
def u32 (x : Nat) : Nat := x % 4294967296

/-- Right rotation of a 32-bit word. -/
def rotr32 (n x : Nat) : Nat := u32 ((x >>> n) ||| (x <<< (32 - n)))

/-- Left rotation of a 32-bit word. -/
def rotl32 (n x : Nat) : Nat := u32 ((x <<< n) ||| (x >>> (32 - n)))

/-- Bitwise complement within 32 bits. -/
def not32 (x : Nat) : Nat := x ^^^ 4294967295

/-- Big-endian word decoding: groups of four bytes into 32-bit words. -/
def bytesToWordsBE : List Nat → List Nat
  | b0 :: b1 :: b2 :: b3 :: r =>
      (b0 * 16777216 + b1 * 65536 + b2 * 256 + b3) :: bytesToWordsBE r
  | _ => []

/-- Little-endian word decoding: groups of four bytes into 32-bit words. -/
def bytesToWordsLE : List Nat → List Nat
  | b0 :: b1 :: b2 :: b3 :: r =>
      (b3 * 16777216 + b2 * 65536 + b1 * 256 + b0) :: bytesToWordsLE r
  | _ => []

/-- Big-endian serialization of a 32-bit word to four bytes. -/
def wordToBytesBE (w : Nat) : List Nat :=
  [w / 16777216 % 256, w / 65536 % 256, w / 256 % 256, w % 256]

/-- Little-endian serialization of a 32-bit word to four bytes. -/
def wordToBytesLE (w : Nat) : List Nat :=
  [w % 256, w / 256 % 256, w / 65536 % 256, w / 16777216 % 256]

/-- Big-endian serialization of a value to a fixed number of bytes. -/
def natToBytesBE : Nat → Nat → List Nat
  | 0, _ => []
  | n + 1, v => natToBytesBE n (v / 256) ++ [v % 256]

/-- Little-endian serialization of a value to a fixed number of bytes. -/
def natToBytesLE : Nat → Nat → List Nat
  | 0, _ => []
  | n + 1, v => v % 256 :: natToBytesLE n (v / 256)

/-- Split a byte sequence into 64-byte blocks. -/
def chunks64 (l : List Nat) : List (List Nat) :=
  if h : l = [] then [] else l.take 64 :: chunks64 (l.drop 64)
termination_by l.length
decreasing_by
  simp only [List.length_drop]
  have : 0 < l.length := List.length_pos.mpr h
  omega

/-! ## SHA-256 (FIPS 180-4) -/

/-- The 64 SHA-256 round constants, written in decimal. -/
def sha256K : List Nat :=
  [1116352408, 1899447441, 3049323471, 3921009573,
   961987163, 1508970993, 2453635748, 2870763221,
   3624381080, 310598401, 607225278, 1426881987,
   1925078388, 2162078206, 2614888103, 3248222580,
   3835390401, 4022224774, 264347078, 604807628,
   770255983, 1249150122, 1555081692, 1996064986,
   2554220882, 2821834349, 2952996808, 3210313671,
   3336571891, 3584528711, 113926993, 338241895,
   666307205, 773529912, 1294757372, 1396182291,
   1695183700, 1986661051, 2177026350, 2456956037,
   2730485921, 2820302411, 3259730800, 3345764771,
   3516065817, 3600352804, 4094571909, 275423344,
   430227734, 506948616, 659060556, 883997877,
   958139571, 1322822218, 1537002063, 1747873779,
   1955562222, 2024104815, 2227730452, 2361852424,
   2428436474, 2756734187, 3204031479, 3329325298]

/-- Working state of the SHA-256 compression function. -/
structure Sha2State where
  a : Nat
  b : Nat
  c : Nat
  d : Nat
  e : Nat
  f : Nat
  g : Nat
  h : Nat
deriving Repr, DecidableEq

/-- Initial SHA-256 hash value, written in decimal. -/
def sha256IV : Sha2State :=
  ⟨1779033703, 3144134277, 1013904242, 2773480762,
   1359893119, 2600822924, 528734635, 1541459225⟩

/-- Choice function of SHA-256. -/
def sha2Ch (x y z : Nat) : Nat := (x &&& y) ^^^ (not32 x &&& z)

/-- Majority function of SHA-256. -/
def sha2Maj (x y z : Nat) : Nat := (x &&& y) ^^^ (x &&& z) ^^^ (y &&& z)

/-- Big sigma-0 of SHA-256. -/
def bsig0 (x : Nat) : Nat := rotr32 2 x ^^^ rotr32 13 x ^^^ rotr32 22 x

/-- Big sigma-1 of SHA-256. -/
def bsig1 (x : Nat) : Nat := rotr32 6 x ^^^ rotr32 11 x ^^^ rotr32 25 x

/-- Small sigma-0 of SHA-256. -/
def ssig0 (x : Nat) : Nat := rotr32 7 x ^^^ rotr32 18 x ^^^ (x >>> 3)

/-- Small sigma-1 of SHA-256. -/
def ssig1 (x : Nat) : Nat := rotr32 17 x ^^^ rotr32 19 x ^^^ (x >>> 10)

/-- One step of the message-schedule extension, appended at the end of `w`. -/
def sha256SchedStep (w : List Nat) : Nat :=
  let k := w.length
  let g := fun i => w.getD i 0
  u32 (ssig1 (g (k - 2)) + g (k - 7) + ssig0 (g (k - 15)) + g (k - 16))

/-- Extend the 16-word message schedule by `n` further words. -/
def sha256Extend : Nat → List Nat → List Nat
  | 0, w => w
  | n + 1, w => sha256Extend n (w ++ [sha256SchedStep w])

/-- One round of the SHA-256 compression function. -/
def sha256Round (st : Sha2State) (kw : Nat × Nat) : Sha2State :=
  let t1 := u32 (st.h + bsig1 st.e + sha2Ch st.e st.f st.g + kw.1 + kw.2)
  let t2 := u32 (bsig0 st.a + sha2Maj st.a st.b st.c)
  ⟨u32 (t1 + t2), st.a, st.b, st.c, u32 (st.d + t1), st.e, st.f, st.g⟩

/-- Process one 64-byte block. -/
def sha256Block (st : Sha2State) (block : List Nat) : Sha2State :=
  let w := sha256Extend 48 (bytesToWordsBE block)
  let e := (sha256K.zip w).foldl sha256Round st
  ⟨u32 (st.a + e.a), u32 (st.b + e.b), u32 (st.c + e.c), u32 (st.d + e.d),
   u32 (st.e + e.e), u32 (st.f + e.f), u32 (st.g + e.g), u32 (st.h + e.h)⟩

/-- SHA-256 padding: a 0x80 byte, zeros, then the 64-bit big-endian bit length. -/
def sha256Pad (msg : List Nat) : List Nat :=
  let r := (msg.length + 1) % 64
  msg ++ 0x80 :: List.replicate ((64 + 56 - r) % 64) 0
      ++ natToBytesBE 8 (msg.length * 8 % 18446744073709551616)

/-- SHA-256 of a byte sequence, as a 32-byte sequence. -/
def sha256 (msg : List Nat) : List Nat :=
  let st := (chunks64 (sha256Pad msg)).foldl sha256Block sha256IV
  wordToBytesBE st.a ++ wordToBytesBE st.b ++ wordToBytesBE st.c ++ wordToBytesBE st.d ++
  wordToBytesBE st.e ++ wordToBytesBE st.f ++ wordToBytesBE st.g ++ wordToBytesBE st.h

/-! ## MD5 (RFC 1321) -/

/-- The 64 MD5 additive constants. -/
def md5K : List Nat :=
  [0xd76aa478, 0xe8c7b756, 0x242070db, 0xc1bdceee,
   0xf57c0faf, 0x4787c62a, 0xa8304613, 0xfd469501,
   0x698098d8, 0x8b44f7af, 0xffff5bb1, 0x895cd7be,
   0x6b901122, 0xfd987193, 0xa679438e, 0x49b40821,
   0xf61e2562, 0xc040b340, 0x265e5a51, 0xe9b6c7aa,
   0xd62f105d, 0x02441453, 0xd8a1e681, 0xe7d3fbc8,
   0x21e1cde6, 0xc33707d6, 0xf4d50d87, 0x455a14ed,
   0xa9e3e905, 0xfcefa3f8, 0x676f02d9, 0x8d2a4c8a,
   0xfffa3942, 0x8771f681, 0x6d9d6122, 0xfde5380c,
   0xa4beea44, 0x4bdecfa9, 0xf6bb4b60, 0xbebfbc70,
   0x289b7ec6, 0xeaa127fa, 0xd4ef3085, 0x04881d05,
   0xd9d4d039, 0xe6db99e5, 0x1fa27cf8, 0xc4ac5665,
   0xf4292244, 0x432aff97, 0xab9423a7, 0xfc93a039,
   0x655b59c3, 0x8f0ccc92, 0xffeff47d, 0x85845dd1,
   0x6fa87e4f, 0xfe2ce6e0, 0xa3014314, 0x4e0811a1,
   0xf7537e82, 0xbd3af235, 0x2ad7d2bb, 0xeb86d391]

/-- The MD5 per-round left-rotation amounts. -/
def md5S : List Nat :=
  [7, 12, 17, 22, 7, 12, 17, 22, 7, 12, 17, 22, 7, 12, 17, 22,
   5, 9, 14, 20, 5, 9, 14, 20, 5, 9, 14, 20, 5, 9, 14, 20,
   4, 11, 16, 23, 4, 11, 16, 23, 4, 11, 16, 23, 4, 11, 16, 23,
   6, 10, 15, 21, 6, 10, 15, 21, 6, 10, 15, 21, 6, 10, 15, 21]

/-- Working state of the MD5 compression function. -/
structure Md5State where
  a : Nat
  b : Nat
  c : Nat
  d : Nat
deriving Repr, DecidableEq

/-- Initial MD5 state. -/
def md5IV : Md5State := ⟨0x67452301, 0xefcdab89, 0x98badcfe, 0x10325476⟩

/-- Round function and message index of MD5 round `i`. -/
def md5FG (i b c d : Nat) : Nat × Nat :=
  if i < 16 then ((b &&& c) ||| (not32 b &&& d), i)
  else if i < 32 then ((d &&& b) ||| (not32 d &&& c), (5 * i + 1) % 16)
  else if i < 48 then (b ^^^ c ^^^ d, (3 * i + 5) % 16)
  else (c ^^^ (b ||| not32 d), (7 * i) % 16)

/-- One round of the MD5 compression function over message words `m`. -/
def md5Round (m : List Nat) (st : Md5State) (i : Nat) : Md5State :=
  let fg := md5FG i st.b st.c st.d
  let rot := rotl32 (md5S.getD i 0) (u32 (st.a + fg.1 + md5K.getD i 0 + m.getD fg.2 0))
  ⟨st.d, u32 (st.b + rot), st.b, st.c⟩

/-- Process one 64-byte block. -/
def md5Block (st : Md5State) (block : List Nat) : Md5State :=
  let m := bytesToWordsLE block
  let e := (List.range 64).foldl (md5Round m) st
  ⟨u32 (st.a + e.a), u32 (st.b + e.b), u32 (st.c + e.c), u32 (st.d + e.d)⟩

/-- MD5 padding: a 0x80 byte, zeros, then the 64-bit little-endian bit length. -/
def md5Pad (msg : List Nat) : List Nat :=
  let r := (msg.length + 1) % 64
  msg ++ 0x80 :: List.replicate ((64 + 56 - r) % 64) 0
      ++ natToBytesLE 8 (msg.length * 8 % 18446744073709551616)

/-- MD5 of a byte sequence, as a 16-byte sequence. -/
def md5 (msg : List Nat) : List Nat :=
  let st := (chunks64 (md5Pad msg)).foldl md5Block md5IV
  wordToBytesLE st.a ++ wordToBytesLE st.b ++ wordToBytesLE st.c ++ wordToBytesLE st.d

/-! ## Text encodings and hex -/

/-- Lowercase hexadecimal digit for a value below 16. -/
def hexDigitChar (n : Nat) : Char :=
  if n < 10 then Char.ofNat (48 + n) else Char.ofNat (87 + n)

/-- Two lowercase hexadecimal digits of one byte. -/
def byteToHex (b : Nat) : List Char := [hexDigitChar (b / 16), hexDigitChar (b % 16)]

/-- Lowercase hexadecimal rendering of a byte sequence, as in Python `bytes.hex()`
and `hexdigest()`. -/
def bytesToHexStr (l : List Nat) : String := ⟨(l.map byteToHex).flatten⟩

/-- UTF-8 encoding of one Unicode scalar value. -/
def utf8Char (c : Char) : List Nat :=
  let n := c.toNat
  if n < 0x80 then [n]
  else if n < 0x800 then [0xc0 + n / 64, 0x80 + n % 64]
  else if n < 0x10000 then [0xe0 + n / 4096, 0x80 + n / 64 % 64, 0x80 + n % 64]
  else [0xf0 + n / 262144, 0x80 + n / 4096 % 64, 0x80 + n / 64 % 64, 0x80 + n % 64]

/-- UTF-8 encoding of a string, as in Python `str.encode()`. -/
def utf8Encode (s : String) : List Nat := (s.data.map utf8Char).flatten

/-- UTF-16 little-endian encoding of one Unicode scalar value (surrogate pair
for values beyond the basic multilingual plane). -/
def utf16leChar (c : Char) : List Nat :=
  let n := c.toNat
  if n < 0x10000 then [n % 256, n / 256]
  else
    let m := n - 0x10000
    let hi := 0xd800 + m / 1024
    let lo := 0xdc00 + m % 1024
    [hi % 256, hi / 256, lo % 256, lo / 256]

/-- UTF-16 little-endian encoding of a string, no byte-order mark, as in
Python `str.encode("utf_16_le")`. -/
def utf16leEncode (s : String) : List Nat := (s.data.map utf16leChar).flatten

/-! ## HMAC-SHA256 (FIPS 198-1) and PBKDF2 (RFC 2898) -/

/-- Exclusive-or of two byte sequences, position by position. -/
def xorBytes : List Nat → List Nat → List Nat
  | a :: as, b :: bs => (a ^^^ b) :: xorBytes as bs
  | _, _ => []

/-- HMAC-SHA256 of a message under a key. -/
def hmacSha256 (key msg : List Nat) : List Nat :=
  let k0 := if 64 < key.length then sha256 key else key
  let k := k0 ++ List.replicate (64 - k0.length) 0
  sha256 ((k.map (fun b => b ^^^ 0x5c)) ++ sha256 ((k.map (fun b => b ^^^ 0x36)) ++ msg))

/-- Iterated-xor chain of PBKDF2: `n` further HMAC applications folded into the
accumulator. -/
def pbkdf2Chain (pw : List Nat) : Nat → List Nat → List Nat → List Nat
  | 0, _, acc => acc
  | n + 1, u, acc =>
      let u' := hmacSha256 pw u
      pbkdf2Chain pw n u' (xorBytes acc u')

/-- Block `i` (one-based) of PBKDF2-HMAC-SHA256 with `c` iterations. -/
def pbkdf2F (pw salt : List Nat) (c i : Nat) : List Nat :=
  let u1 := hmacSha256 pw (salt ++ natToBytesBE 4 i)
  pbkdf2Chain pw (c - 1) u1 u1

/-- PBKDF2-HMAC-SHA256 deriving `dklen` bytes; meaningful for `1 ≤ c`, matching
the domain on which Python `hashlib.pbkdf2_hmac` is defined. -/
def pbkdf2HmacSha256 (pw salt : List Nat) (c dklen : Nat) : List Nat :=
  (((List.range ((dklen + 31) / 32)).map (fun j => pbkdf2F pw salt c (j + 1))).flatten).take dklen

/-! ## Python string primitives used by `fritz.py` -/

/-- Python ASCII whitespace, the characters stripped by `str.strip()` and
tolerated around `int()` arguments. -/
def isPySpace (c : Char) : Bool :=
  c = ' ' || c = '\t' || c = '\n' || c = '\x0d' || c = '\x0b' || c = '\x0c'

/-- Remove leading and trailing whitespace from a character list, as in
Python `str.strip()`. -/
def pyStripList (l : List Char) : List Char :=
  ((l.dropWhile isPySpace).reverse.dropWhile isPySpace).reverse

/-- Remove leading and trailing whitespace from a string. -/
def pyStrip (s : String) : String := ⟨pyStripList s.data⟩

/-- Split a character list at every occurrence of a separator character, as in
Python `str.split(sep)` for a one-character separator. -/
def splitCh (sep : Char) : List Char → List (List Char)
  | [] => [[]]
  | c :: r =>
      let s := splitCh sep r
      if c = sep then [] :: s else (c :: s.headI) :: s.tail

/-- Split a string at every occurrence of a separator character. -/
def pySplit (sep : Char) (s : String) : List String :=
  (splitCh sep s.data).map (fun l => ⟨l⟩)

/-- Decimal digit test. -/
def isDig (c : Char) : Bool := '0' ≤ c ∧ c ≤ '9'

/-- Value of a decimal digit list (most significant first). -/
def digitsVal (l : List Char) : Nat :=
  l.foldl (fun a c => a * 10 + (c.toNat - 48)) 0

/-- Valid digit group of a Python integer literal: nonempty, all digits. -/
def okDigitGroup (l : List Char) : Bool := l ≠ [] && l.all isDig

/-- Unsigned core of Python `int(str)`: nonempty digits, possibly grouped by
single underscores. -/
def pyIntCore (body : List Char) : Option Int :=
  if (splitCh '_' body).all okDigitGroup && body ≠ [] then
    some (Int.ofNat (digitsVal (body.filter (fun c => c ≠ '_'))))
  else none

/-- Python `int(str)` on a character list: surrounding whitespace and one sign
are allowed, digits may be grouped by single underscores; `none` models the
raised `ValueError`. -/
def pyIntList (l : List Char) : Option Int :=
  let t := pyStripList l
  if t.headI = '-' then (pyIntCore t.tail).map (fun v => -v)
  else if t.headI = '+' then pyIntCore t.tail
  else pyIntCore t

/-- Python `int(str)` on a string. -/
def pyInt (s : String) : Option Int := pyIntList s.data

/-- Hexadecimal digit test (both cases). -/
def isHexDig (c : Char) : Bool :=
  isDig c || ('a' ≤ c ∧ c ≤ 'f') || ('A' ≤ c ∧ c ≤ 'F')

/-- Value of one hexadecimal digit. -/
def hexVal (c : Char) : Nat :=
  if isDig c then c.toNat - 48
  else if 'a' ≤ c ∧ c ≤ 'f' then c.toNat - 87
  else c.toNat - 55

/-- Decode pairs of hexadecimal digits into bytes, spaces allowed between
pairs, as in Python `bytes.fromhex`; `none` models the raised `ValueError`. -/
def fromhexList : List Char → Option (List Nat)
  | [] => some []
  | c1 :: r =>
      if c1 = ' ' then fromhexList r
      else
        match r with
        | [] => none
        | c2 :: r' =>
            if isHexDig c1 && isHexDig c2 then
              (fromhexList r').map (fun bs => (hexVal c1 * 16 + hexVal c2) :: bs)
            else none

/-- Python `bytes.fromhex` on a string. -/
def pyFromhex (s : String) : Option (List Nat) := fromhexList s.data

/-- Containment of one character list in another as a contiguous run. -/
def listContains (pat : List Char) : List Char → Bool
  | [] => decide (pat = [])
  | c :: r => pat.isPrefixOf (c :: r) || listContains pat r

/-- Substring containment, as in the Python expression `item in message`
(code-point based). -/
def strContains (message pat : String) : Bool := listContains pat.data message.data

/-- Python `str.startswith` for the concrete two-character marker test used by
`fritz.py` is code-point prefix containment. -/
def pyStartsWith (s p : String) : Bool := p.data.isPrefixOf s.data

/-! ## Crypto Responder (`calculate_pbkdf2_response`, `calculate_md5_response`) -/

/-- Embedding of `calculate_pbkdf2_response`.  The challenge is split at `$`;
fields 1 to 4 are the first iteration count, the first salt (hex), the second
iteration count and the second salt (hex).  `none` models the Python
exceptions on a short split, unparsable integers, invalid hex, or an
iteration count below 1 (`hashlib.pbkdf2_hmac` raises on those). -/
def calculate_pbkdf2_response (challenge password : String) : Option String :=
  match pySplit '$' challenge with
  | _ :: p1 :: p2 :: p3 :: p4 :: _ =>
      match pyInt p1, pyFromhex p2, pyInt p3, pyFromhex p4 with
      | some iter1, some salt1, some iter2, some salt2 =>
          if 1 ≤ iter1 ∧ 1 ≤ iter2 then
            let hash1 := pbkdf2HmacSha256 (utf8Encode password) salt1 iter1.toNat 32
            let hash2 := pbkdf2HmacSha256 hash1 salt2 iter2.toNat 32
            some (p4 ++ "$" ++ bytesToHexStr hash2)
          else none
      | _, _, _, _ => none
  | _ => none

/-- Embedding of `calculate_md5_response`: the UTF-16LE encoding of
`challenge + "-" + password` is hashed with MD5 and appended to the
challenge. -/
def calculate_md5_response (challenge password : String) : String :=
  challenge ++ "-" ++ bytesToHexStr (md5 (utf16leEncode (challenge ++ "-" ++ password)))

/-- Response-selection step of `get_sid` (the spec's `computeResponse`): the
PBKDF2 variant exactly when the challenge starts with the version marker
`2$`, the MD5 variant otherwise. -/
def computeResponse (challenge password : String) : Option String :=
  if pyStartsWith challenge "2$" then calculate_pbkdf2_response challenge password
  else some (calculate_md5_response challenge password)

/-! ## Errors raised (or named by the spec) across `fritz.py` -/

/-- Exception outcomes of the embedded functions.  The first four model the
exceptions `get_sid` raises or propagates; `typeError`, `malformedTimestamp`
and `valueError` model the exceptions of the retrieval and persistence paths;
`retrievalFailed` is the error the spec's taxonomy names for a non-success
log-endpoint status. -/
inductive PyErr where
  | challengeFetchFailed
  | loginFailed
  | wrongCredentials
  | malformedChallenge
  | typeError
  | malformedTimestamp
  | valueError
  | retrievalFailed (code : Nat)
deriving Repr, DecidableEq

instance {ε α : Type} [DecidableEq ε] [DecidableEq α] : DecidableEq (Except ε α) :=
  fun x y =>
    match x, y with
    | .ok a, .ok b =>
        if h : a = b then isTrue (h ▸ rfl)
        else isFalse (fun hh => h (Except.ok.inj hh))
    | .error e, .error f =>
        if h : e = f then isTrue (h ▸ rfl)
        else isFalse (fun hh => h (Except.error.inj hh))
    | .ok _, .error _ => isFalse (fun hh => Except.noConfusion hh)
    | .error _, .ok _ => isFalse (fun hh => Except.noConfusion hh)

/-! ## Session Negotiator (`get_sid`) -/

/-- Embedding of the `LoginState` class: the challenge string and the block
time parsed from the login-endpoint XML. -/
structure LoginState where
  challenge : String
  blocktime : Int
deriving Repr, DecidableEq

/-- Derived field `is_pbkdf2` of `LoginState`. -/
def LoginState.isPbkdf2 (st : LoginState) : Bool := pyStartsWith st.challenge "2$"

/-- Embedding of `get_sid`, with the two HTTP exchanges abstracted:
`fetchResult` is the outcome of `get_login_state` and `send cr` the SID text
of the XML answer to submitting the challenge response `cr`
(`Except.error ()` models a transport or parse exception).  The block-time
sleep changes no data and is not modelled. -/
def get_sid (fetchResult : Except Unit LoginState) (password : String)
    (send : String → Except Unit String) : Except PyErr String :=
  match fetchResult with
  | .error _ => .error .challengeFetchFailed
  | .ok state =>
      match computeResponse state.challenge password with
      | none => .error .malformedChallenge
      | some cr =>
          match send cr with
          | .error _ => .error .loginFailed
          | .ok sid =>
              if sid = "0000000000000000" then .error .wrongCredentials else .ok sid

/-! ## Timestamp derivation (`unix_timestamp_from_strings`) -/

/-- Leap-year test of the Gregorian calendar. -/
def isLeap (y : Nat) : Bool := y % 4 = 0 && (y % 100 ≠ 0 || y % 400 = 0)

/-- Number of days of month `m` in year `y`. -/
def daysInMonth (y m : Nat) : Nat :=
  if m = 2 then (if isLeap y then 29 else 28)
  else if m = 4 || m = 6 || m = 9 || m = 11 then 30
  else 31

/-- Days from the civil epoch 1970-01-01 to year-month-day (proleptic
Gregorian), valid for years from 1. -/
def daysFromCivil (y m d : Nat) : Int :=
  let yShift := y - (if m ≤ 2 then 1 else 0)
  let era := yShift / 400
  let yoe := yShift % 400
  let mp := if 2 < m then m - 3 else m + 9
  let doy := (153 * mp + 2) / 5 + (d - 1)
  let doe := yoe * 365 + yoe / 4 - yoe / 100 + doy
  (Int.ofNat (era * 146097 + doe)) - 719468

/-- Component of a `strptime` pattern matching one or two decimal digits, as
the day, month, hour, minute and second directives do. -/
def parse2Dig (l : List Char) : Option Nat :=
  if okDigitGroup l && l.length ≤ 2 then some (digitsVal l) else none

/-- Component of a `strptime` pattern matching exactly two decimal digits:
the `%y` directive accepts nothing shorter. -/
def parse2Exact (l : List Char) : Option Nat :=
  if okDigitGroup l && l.length = 2 then some (digitsVal l) else none

/-- Embedding of `unix_timestamp_from_strings`: `strptime` with the pattern
`%d.%m.%y %H:%M:%S` (exactly-two-digit year expanded to 2000–2068 /
1969–1999, the other components one or two digits) followed by
`datetime.timestamp()`, with the local timezone modelled as UTC; `none`
models the `ValueError` raised on a malformed string. -/
def unix_timestamp_from_strings (date_string time_string : String) : Option Int :=
  match splitCh '.' date_string.data, splitCh ':' time_string.data with
  | [ds, ms, ys], [hs, mins, ss] =>
      match parse2Dig ds, parse2Dig ms, parse2Exact ys,
            parse2Dig hs, parse2Dig mins, parse2Dig ss with
      | some d, some m, some yy, some h, some mi, some s =>
          let y := if yy ≤ 68 then 2000 + yy else 1900 + yy
          if 1 ≤ m && m ≤ 12 && 1 ≤ d && d ≤ daysInMonth y m
              && h ≤ 23 && mi ≤ 59 && s ≤ 59 then
            some (daysFromCivil y m d * 86400 + (h * 3600 + mi * 60 + s))
          else none
      | _, _, _, _, _, _ => none
  | _, _ => none

/-! ## Event Log Retriever (`get_fritzbox_event_log`, `is_excluded`) -/

/-- Element of a well-typed `exclude` configuration list: a Python string, a
Python list of strings, or a value of any other non-list type (`other`).
Lists holding non-string members are outside this type; they are covered by
the full model `ExItem` below. -/
inductive EItem where
  | str (s : String)
  | list (l : List String)
  | other
deriving Repr, DecidableEq

/-- Embedding of `is_excluded` on well-typed exclusion lists: the first
matching criterion excludes the message; a string matches by substring
containment, a list when all of its elements are contained, and values of
other types are skipped. -/
def is_excluded (message : String) : List EItem → Bool
  | [] => false
  | .str s :: rest =>
      if strContains message s then true else is_excluded message rest
  | .list l :: rest =>
      if l.all (strContains message) then true else is_excluded message rest
  | .other :: rest => is_excluded message rest

/-- Member of a Python list inside the `exclude` configuration: a string, or
a value of any other type, whose evaluation in `part in message` raises a
`TypeError`. -/
inductive ExVal where
  | str (s : String)
  | other
deriving Repr, DecidableEq

/-- Element of an arbitrarily-typed `exclude` configuration list: a string, a
list of arbitrarily-typed members, or a value of any other non-list type. -/
inductive ExItem where
  | str (s : String)
  | list (l : List ExVal)
  | other
deriving Repr, DecidableEq

/-- Evaluation of `all(part in message for part in item)`: parts are checked
left to right, a failing string part stops with `False`, and a non-string
part reached raises a `TypeError`. -/
def allParts (message : String) : List ExVal → Except PyErr Bool
  | [] => .ok true
  | .str s :: rest =>
      if strContains message s then allParts message rest else .ok false
  | .other :: _ => .error .typeError

/-- Embedding of `is_excluded` on arbitrarily-typed exclusion lists:
`isinstance` sends strings to the containment test and lists — whatever their
members — to `allParts`, whose `TypeError` propagates; other values are
skipped. -/
def is_excluded_full (message : String) : List ExItem → Except PyErr Bool
  | [] => .ok false
  | .str s :: rest =>
      if strContains message s then .ok true else is_excluded_full message rest
  | .list l :: rest =>
      match allParts message l with
      | .error e => .error e
      | .ok true => .ok true
      | .ok false => is_excluded_full message rest
  | .other :: rest => is_excluded_full message rest

/-- Inclusion of the well-typed exclusion elements into the full model. -/
def EItem.toFull : EItem → ExItem
  | .str s => .str s
  | .list l => .list (l.map ExVal.str)
  | .other => .other

/-- Parsed JSON value of the log-endpoint response body. -/
inductive Json where
  | null
  | bool (b : Bool)
  | num (n : Int)
  | str (s : String)
  | arr (items : List Json)
  | obj (fields : List (String × Json))
deriving Repr

/-- Lookup of a key in a JSON object's field list. -/
def lookupField (key : String) : List (String × Json) → Option Json
  | [] => none
  | (k, v) :: rest => if k = key then some v else lookupField key rest

/-- Raw log entry: the four strings `[date, time, message, code]` of one
`data.log` element. -/
structure RawEntry where
  date : String
  time : String
  message : String
  code : String
deriving Repr, DecidableEq

/-- Interpretation of one `data.log` element as a 4-tuple of strings; further
elements are ignored, as Python indexes only positions 0 to 3. -/
def toEntry : Json → Option RawEntry
  | .arr (.str d :: .str t :: .str m :: .str c :: _) => some ⟨d, t, m, c⟩
  | _ => none

/-- Extraction of `jdata.get("data").get("log")` as a list of 4-tuples;
`none` models the attribute, type and index errors Python raises when the
shape is different. -/
def extractLog (body : Json) : Option (List RawEntry) :=
  match body with
  | .obj fields =>
      match lookupField "data" fields with
      | some (.obj inner) =>
          match lookupField "log" inner with
          | some (.arr items) => items.mapM toEntry
          | _ => none
      | _ => none
  | _ => none

/-- Row of the produced CSV data: the dictionary built for one surviving
entry, all five values strings. -/
structure Record where
  Timestamp : String
  Date : String
  Time : String
  Message : String
  Code : String
deriving Repr, DecidableEq

/-- Dictionary built from one raw entry and its derived timestamp. -/
def mkRecord (e : RawEntry) (ts : Int) : Record :=
  ⟨toString ts, e.date, e.time, e.message, e.code⟩

/-- Loop body of `get_fritzbox_event_log` over the already-reversed entry
list: excluded entries are skipped, surviving ones converted in order; a
malformed date or time of a surviving entry raises. -/
def processEntries (excludes : List EItem) : List RawEntry → Except PyErr (List Record)
  | [] => .ok []
  | e :: rest =>
      if is_excluded e.message excludes then processEntries excludes rest
      else
        match unix_timestamp_from_strings e.date e.time with
        | none => .error .malformedTimestamp
        | some ts => (processEntries excludes rest).map (fun l => mkRecord e ts :: l)

/-- Embedding of the URL normalization at the head of
`get_fritzbox_event_log`. -/
def normalizeDataUrl (url : String) : String :=
  if url.endsWith "/" then url ++ "data.lua"
  else if strContains url "data.lua" then url else url ++ "/data.lua"

/-- Embedding of `get_fritzbox_event_log` after the POST, as a function of the
response status and parsed JSON body: the pair holds the printed lines and
the outcome, where `Except.ok` carries the Python return value (`none` is
Python `None`, returned without raising on a non-200 status). -/
def get_fritzbox_event_log (status : Nat) (body : Json) (excludes : List EItem) :
    List String × Except PyErr (Option (List Record)) :=
  if status = 200 then
    match extractLog body with
    | none => ([], .error .typeError)
    | some entries =>
        match processEntries excludes entries.reverse with
        | .error e => ([], .error e)
        | .ok l => ([], .ok (some l))
  else
    (["Failed to retrieve event log. Status code: " ++ toString status], .ok none)

/-! ## Incremental Persister (`get_last_timestamp`, `create_or_append_to_csv`) -/

/-- Universal-newline translation performed when a file is read in text mode:
carriage-return-linefeed pairs and lone carriage returns become linefeeds. -/
def transNL : List Char → List Char
  | [] => []
  | '\x0d' :: '\n' :: r => '\n' :: transNL r
  | '\x0d' :: r => '\n' :: transNL r
  | c :: r => c :: transNL r

/-- Accumulating splitter behind `readlines`: lines keep their terminating
linefeed; a last unterminated chunk is kept if nonempty. -/
def linesAux : List Char → List Char → List (List Char)
  | [], acc => if acc.isEmpty then [] else [acc.reverse]
  | c :: rest, acc =>
      if c = '\n' then (acc.reverse ++ ['\n']) :: linesAux rest []
      else linesAux rest (c :: acc)

/-- Python `file.readlines()` on the raw file content, text mode. -/
def pyReadlines (content : String) : List (List Char) := linesAux (transNL content.data) []

/-- Embedding of `get_last_timestamp`: the integer parsed from the first
semicolon-delimited field of the final line; `1` when the file is missing or
unreadable (`none`), empty, or the field does not parse. -/
def get_last_timestamp (file : Option String) : Int :=
  match file with
  | none => 1
  | some content =>
      match (pyReadlines content).getLast? with
      | none => 1
      | some lastLine =>
          match pyIntList (pyStripList ((splitCh ';' (pyStripList lastLine)).headI)) with
          | some v => v
          | none => 1

/-- Quoting test of the csv writer under minimal quoting with delimiter `;`
and terminator carriage-return-linefeed. -/
def needsQuote (s : String) : Bool :=
  s.data.any (fun c => c = ';' || c = '"' || c = '\n' || c = '\x0d')

/-- One field as written by the csv writer: quoted, with inner quotes
doubled, exactly when it contains the delimiter, a quote or a terminator
character. -/
def csvField (s : String) : String :=
  if needsQuote s then
    "\"" ++ ⟨(s.data.map (fun c => if c = '"' then ['"', '"'] else [c])).flatten⟩ ++ "\""
  else s

/-- Join of character lists with a single semicolon between them. -/
def joinSemi : List (List Char) → List Char
  | [] => []
  | [f] => f
  | f :: rest => f ++ ';' :: joinSemi rest

/-- One row as written by the csv writer: fields joined by semicolons,
terminated by carriage-return-linefeed. -/
def csvRow (fields : List String) : String :=
  ⟨joinSemi (fields.map (fun f => (csvField f).data)) ++ ['\x0d', '\n']⟩

/-- Keys of the row dictionaries built by the retriever. -/
def stdFields : List String := ["Timestamp", "Date", "Time", "Message", "Code"]

/-- Value of one dictionary key of a record; an unknown key yields the
writer's empty rest-value. -/
def recordGet (r : Record) (k : String) : String :=
  if k = "Timestamp" then r.Timestamp
  else if k = "Date" then r.Date
  else if k = "Time" then r.Time
  else if k = "Message" then r.Message
  else if k = "Code" then r.Code
  else ""

/-- Loop of `create_or_append_to_csv`: each entry's timestamp is parsed with
`int` (raising on failure), and rows strictly newer than `lastTs` are written;
a record key absent from the field list makes the dictionary writer raise.
The first component is the text written before any raise. -/
def writeRows (fieldnames : List String) (lastTs : Int) : List Record → String × Option PyErr
  | [] => ("", none)
  | r :: rest =>
      match pyInt r.Timestamp with
      | none => ("", some .valueError)
      | some ts =>
          if lastTs < ts then
            if stdFields.all (fieldnames.contains ·) then
              let tail := writeRows fieldnames lastTs rest
              (csvRow (fieldnames.map (recordGet r)) ++ tail.1, tail.2)
            else ("", some .valueError)
          else writeRows fieldnames lastTs rest

/-- Embedding of `create_or_append_to_csv` over the store state (`none` when
the file does not exist): result is the final file content and the raised
exception, if any.  A header row is first written when the file is new; the
last timestamp is read from the pre-call content in either case, since the
appended header is still unflushed when the path is re-read — and a header
line's first field does not parse as an integer anyway. -/
def create_or_append_to_csv (file : Option String) (data : List Record)
    (fieldnames : List String) : String × Option PyErr :=
  let base := file.getD ""
  let withHeader := base ++ (if file.isSome then "" else csvRow fieldnames)
  let lastTs := get_last_timestamp (some base)
  let rows := writeRows fieldnames lastTs data
  (withHeader ++ rows.1, rows.2)

/-- Greatest element of an integer list, `none` when empty. -/
def listMax : List Int → Option Int
  | [] => none
  | x :: r =>
      match listMax r with
      | none => some x
      | some m => some (max x m)

/-- Test that a store state is missing, empty, or ends with a line
terminator — the shape every store previously written by the persister has. -/
def storeLineTerminated : Option String → Bool
  | none => true
  | some c => c.data.isEmpty || c.data.getLast? = some '\n'
      || c.data.getLast? = some '\x0d'

/-! ## Supporting lemmas -/

theorem listContains_iff (pat l : List Char) :
    listContains pat l = true ↔ pat <:+: l := by
  induction l with
  | nil => simp [listContains]
  | cons c r ih =>
      simp [listContains, List.isPrefixOf_iff_prefix, ih, List.infix_cons_iff]

theorem strContains_iff (message pat : String) :
    strContains message pat = true ↔ pat.data <:+: message.data :=
  listContains_iff pat.data message.data

theorem splitCh_ne_nil (sep : Char) (l : List Char) : splitCh sep l ≠ [] := by
  cases l with
  | nil => simp [splitCh]
  | cons c r => simp only [splitCh]; split <;> simp

theorem splitCh_cons_self (sep : Char) (l : List Char) :
    splitCh sep l = (splitCh sep l).headI :: (splitCh sep l).tail := by
  cases h : splitCh sep l with
  | nil => exact absurd h (splitCh_ne_nil sep l)
  | cons a t => simp

theorem mem_splitCh {sep c : Char} {l : List Char} (h : c ∈ l) :
    c = sep ∨ ∃ g ∈ splitCh sep l, c ∈ g := by
  induction l with
  | nil => simp at h
  | cons d r ih =>
      rcases List.mem_cons.mp h with rfl | hr
      · by_cases hd : c = sep
        · exact Or.inl hd
        · exact Or.inr ⟨c :: (splitCh sep r).headI, by simp [splitCh, hd], by simp⟩
      · rcases ih hr with h' | ⟨g, hg, hcg⟩
        · exact Or.inl h'
        · by_cases hd : d = sep
          · exact Or.inr ⟨g, by simp [splitCh, hd, hg], hcg⟩
          · rcases List.mem_cons.mp ((splitCh_cons_self sep r) ▸ hg) with hgh | hgt
            · exact Or.inr ⟨d :: g, by simp [splitCh, hd, hgh],
                List.mem_cons_of_mem d hcg⟩
            · exact Or.inr ⟨g, by simp [splitCh, hd, hgt], hcg⟩

theorem splitCh_no_sep {sep : Char} {l : List Char} (h : sep ∉ l) :
    splitCh sep l = [l] := by
  induction l with
  | nil => rfl
  | cons c r ih =>
      have hc : ¬ c = sep := fun hcs => h (hcs ▸ List.mem_cons_self c r)
      have hr : sep ∉ r := fun hrs => h (List.mem_cons_of_mem c hrs)
      simp [splitCh, hc, ih hr]

theorem splitCh_append {sep : Char} {a : List Char} (b : List Char) (ha : sep ∉ a) :
    splitCh sep (a ++ sep :: b) = a :: splitCh sep b := by
  induction a with
  | nil => simp [splitCh]
  | cons c r ih =>
      have hc : ¬ c = sep := fun hcs => ha (hcs ▸ List.mem_cons_self c r)
      have hr : sep ∉ r := fun hrs => ha (List.mem_cons_of_mem c hrs)
      simp [splitCh, hc, ih hr]

theorem mem_strip_or_space {c : Char} {l : List Char} (h : c ∈ l) :
    isPySpace c = true ∨ c ∈ pyStripList l := by
  by_cases hs : isPySpace c = true
  · exact Or.inl hs
  · right
    unfold pyStripList
    have step : ∀ m : List Char, c ∈ m → c ∈ m.dropWhile isPySpace := by
      intro m hm
      rw [← List.takeWhile_append_dropWhile (p := isPySpace) (l := m)] at hm
      rcases List.mem_append.mp hm with h' | h'
      · exact absurd (List.mem_takeWhile_imp h') hs
      · exact h'
    exact List.mem_reverse.mpr (step _ (List.mem_reverse.mpr (step _ h)))

theorem chars_of_int_body {body : List Char}
    (hall : (splitCh '_' body).all okDigitGroup = true) {c : Char} (hc : c ∈ body) :
    c = '_' ∨ isDig c = true := by
  rcases mem_splitCh hc with h | ⟨g, hg, hcg⟩
  · exact Or.inl h
  · right
    have hgrp := List.all_eq_true.mp hall g hg
    rw [okDigitGroup, Bool.and_eq_true] at hgrp
    exact List.all_eq_true.mp hgrp.2 c hcg

theorem pyIntCore_chars {body : List Char} {v : Int} (h : pyIntCore body = some v)
    {c : Char} (hc : c ∈ body) : c = '_' ∨ isDig c = true := by
  rw [pyIntCore, ite_eq_iff] at h
  rcases h with ⟨hcond, -⟩ | ⟨-, hnone⟩
  · rw [Bool.and_eq_true] at hcond
    exact chars_of_int_body hcond.1 hc
  · exact absurd hnone (by simp)

theorem pyIntList_chars {l : List Char} {v : Int} (h : pyIntList l = some v)
    {c : Char} (hc : c ∈ l) :
    isPySpace c = true ∨ c = '-' ∨ c = '+' ∨ c = '_' ∨ isDig c = true := by
  rcases mem_strip_or_space hc with hs | ht
  · exact Or.inl hs
  · right
    rw [pyIntList] at h
    rcases hts : pyStripList l with _ | ⟨c0, rest⟩
    · rw [hts] at ht; simp at ht
    · rw [hts] at ht h
      rcases List.mem_cons.mp ht with rfl | hrest
      · by_cases h0 : c = '-'
        · exact Or.inl h0
        · by_cases h1 : c = '+'
          · exact Or.inr (Or.inl h1)
          · rw [List.headI_cons, if_neg h0, if_neg h1] at h
            rcases pyIntCore_chars h (List.mem_cons_self c rest) with h' | h'
            · exact Or.inr (Or.inr (Or.inl h'))
            · exact Or.inr (Or.inr (Or.inr h'))
      · by_cases h0 : c0 = '-'
        · rw [List.headI_cons, if_pos h0, Option.map_eq_some'] at h
          obtain ⟨w, hw, -⟩ := h
          rcases pyIntCore_chars (c := c) hw (by simpa using hrest) with h' | h'
          · exact Or.inr (Or.inr (Or.inl h'))
          · exact Or.inr (Or.inr (Or.inr h'))
        · by_cases h1 : c0 = '+'
          · rw [List.headI_cons, if_neg h0, if_pos h1] at h
            rcases pyIntCore_chars (c := c) h (by simpa using hrest) with h' | h'
            · exact Or.inr (Or.inr (Or.inl h'))
            · exact Or.inr (Or.inr (Or.inr h'))
          · rw [List.headI_cons, if_neg h0, if_neg h1] at h
            rcases pyIntCore_chars h (List.mem_cons_of_mem c0 hrest) with h' | h'
            · exact Or.inr (Or.inr (Or.inl h'))
            · exact Or.inr (Or.inr (Or.inr h'))

theorem pyIntList_dollar {l : List Char} {v : Int} (h : pyIntList l = some v) :
    '$' ∉ l := by
  intro hc
  rcases pyIntList_chars h hc with h' | h' | h' | h' | h' <;>
    simp [isPySpace, isDig] at h'

theorem fromhexList_dollar_aux : ∀ (n : Nat) (l : List Char), l.length = n →
    ∀ bs, fromhexList l = some bs → '$' ∉ l := by
  intro n
  induction n using Nat.strong_induction_on with
  | _ n ih =>
      intro l hlen bs h hmem
      rcases l with _ | ⟨c1, rest⟩
      · simp at hmem
      · by_cases hsp : c1 = ' '
        · subst hsp
          have hstep : fromhexList (' ' :: rest) = fromhexList rest := by
            rcases rest with _ | ⟨c2, r⟩
            · rw [fromhexList.eq_2, if_pos rfl]
            · rw [fromhexList.eq_3, if_pos rfl]
          rw [hstep] at h
          rcases List.mem_cons.mp hmem with h' | hr
          · exact absurd h' (by decide)
          · exact ih rest.length (by simp at hlen; omega) rest rfl bs h hr
        · rcases rest with _ | ⟨c2, r'⟩
          · rw [fromhexList.eq_2, if_neg hsp] at h
            exact absurd h (by simp)
          · rw [fromhexList.eq_3, if_neg hsp] at h
            rw [ite_eq_iff] at h
            rcases h with ⟨hcond, hmap⟩ | ⟨-, hnone⟩
            · rw [Bool.and_eq_true] at hcond
              rw [Option.map_eq_some'] at hmap
              obtain ⟨bs', hbs', -⟩ := hmap
              rcases List.mem_cons.mp hmem with h' | h'
              · rw [← h'] at hcond
                exact absurd hcond.1 (by simp [isHexDig, isDig])
              · rcases List.mem_cons.mp h' with h'' | h''
                · rw [← h''] at hcond
                  exact absurd hcond.2 (by simp [isHexDig, isDig])
                · exact ih r'.length (by simp at hlen; omega) r' rfl bs' hbs' h''
            · exact absurd hnone (by simp)

theorem fromhexList_dollar {l : List Char} {bs : List Nat}
    (h : fromhexList l = some bs) : '$' ∉ l :=
  fromhexList_dollar_aux l.length l rfl bs h

/-! ## Theorems -/

/-- C1: for every modern challenge of the form
`2$iter1$salt1hex$iter2$salt2hex` with parsable positive iteration counts and
valid hexadecimal salts, and every password, the response is the second salt
in hex, a dollar, and the hex of the twice-applied 32-byte
PBKDF2-HMAC-SHA256: first of the UTF-8 password under the first salt and
count, then of that hash under the second salt and count. -/
theorem C1_pbkdf2_variant (i1s s1h i2s s2h password : String)
    (iter1 iter2 : Int) (salt1 salt2 : List Nat)
    (h1 : pyInt i1s = some iter1) (hp1 : 1 ≤ iter1)
    (h2 : pyFromhex s1h = some salt1)
    (h3 : pyInt i2s = some iter2) (hp2 : 1 ≤ iter2)
    (h4 : pyFromhex s2h = some salt2) :
    computeResponse ("2$" ++ i1s ++ "$" ++ s1h ++ "$" ++ i2s ++ "$" ++ s2h) password
      = some (s2h ++ "$" ++ bytesToHexStr (pbkdf2HmacSha256
          (pbkdf2HmacSha256 (utf8Encode password) salt1 iter1.toNat 32)
          salt2 iter2.toNat 32)) := by
  have d1 : '$' ∉ i1s.data := pyIntList_dollar (by simpa [pyInt] using h1)
  have d2 : '$' ∉ s1h.data := fromhexList_dollar (by simpa [pyFromhex] using h2)
  have d3 : '$' ∉ i2s.data := pyIntList_dollar (by simpa [pyInt] using h3)
  have d4 : '$' ∉ s2h.data := fromhexList_dollar (by simpa [pyFromhex] using h4)
  have e1 : ("2$" : String).data = ['2', '$'] := rfl
  have e2 : ("$" : String).data = ['$'] := rfl
  have hdata : ("2$" ++ i1s ++ "$" ++ s1h ++ "$" ++ i2s ++ "$" ++ s2h).data
      = ['2'] ++ '$' :: (i1s.data ++ '$' :: (s1h.data ++ '$' :: (i2s.data ++ '$' :: s2h.data))) := by
    simp [String.data_append, e1, e2]
  have hsplit : pySplit '$' ("2$" ++ i1s ++ "$" ++ s1h ++ "$" ++ i2s ++ "$" ++ s2h)
      = ["2", i1s, s1h, i2s, s2h] := by
    unfold pySplit
    rw [hdata, splitCh_append _ (by decide), splitCh_append _ d1,
      splitCh_append _ d2, splitCh_append _ d3, splitCh_no_sep d4]
    rfl
  have hstart : pyStartsWith ("2$" ++ i1s ++ "$" ++ s1h ++ "$" ++ i2s ++ "$" ++ s2h) "2$"
      = true := by
    unfold pyStartsWith
    rw [hdata, e1]
    simp [List.isPrefixOf]
  rw [computeResponse, hstart, if_pos rfl, calculate_pbkdf2_response, hsplit]
  simp only [h1, h2, h3, h4]
  rw [if_pos ⟨hp1, hp2⟩]

/-- C1 witness: the statement instantiated at the challenge `2$1$ab$2$cd`
and password `p`. -/
theorem C1_witness :
    pyInt "1" = some 1 ∧ pyFromhex "ab" = some [171]
    ∧ pyInt "2" = some 2 ∧ pyFromhex "cd" = some [205]
    ∧ computeResponse ("2$" ++ "1" ++ "$" ++ "ab" ++ "$" ++ "2" ++ "$" ++ "cd") "p"
        = some ("cd" ++ "$" ++ bytesToHexStr (pbkdf2HmacSha256
            (pbkdf2HmacSha256 (utf8Encode "p") [171] 1 32) [205] 2 32)) :=
  ⟨by decide, by decide, by decide, by decide,
   C1_pbkdf2_variant "1" "ab" "2" "cd" "p" 1 2 [171] [205]
     (by decide) (by decide) (by decide) (by decide) (by decide) (by decide)⟩

/-- C6: a message is excluded exactly when some rule matches it — a string
rule by being a substring, a list rule by all of its elements being
substrings — and in particular the rule set of one string rule `foo` and one
conjunction rule `bar, baz` excludes `foo happened` and `bar and baz both`
but not `bar only`. -/
theorem C6_exclusion_semantics :
    (∀ (message : String) (excludes : List EItem),
        is_excluded message excludes = true
          ↔ ∃ item ∈ excludes,
              (match item with
               | .str s => s.data <:+: message.data
               | .list l => ∀ p ∈ l, p.data <:+: message.data
               | .other => False))
    ∧ is_excluded "foo happened" [.str "foo", .list ["bar", "baz"]] = true
    ∧ is_excluded "bar and baz both" [.str "foo", .list ["bar", "baz"]] = true
    ∧ is_excluded "bar only" [.str "foo", .list ["bar", "baz"]] = false := by
  refine ⟨?_, by decide, by decide, by decide⟩
  intro message excludes
  induction excludes with
  | nil => simp [is_excluded]
  | cons it rest ih =>
      cases it with
      | str s =>
          cases hc : strContains message s <;>
            simp [is_excluded, hc, ih, ← strContains_iff]
      | list l =>
          cases hc : l.all (strContains message) <;>
            [skip; skip] <;>
            · rw [is_excluded, hc]
              have hall : (∀ p ∈ l, p.data <:+: message.data)
                  ↔ l.all (strContains message) = true := by
                simp [List.all_eq_true, ← strContains_iff]
              simp [ih, hall, hc]
      | other => simp [is_excluded, ih]

/-- C2: for every challenge not starting with the modern marker and every
password, the response is the challenge, a dash, and the lowercase MD5 hex
digest of the UTF-16LE encoding of challenge-dash-password. -/
theorem C2_md5_variant (challenge password : String)
    (h : pyStartsWith challenge "2$" = false) :
    computeResponse challenge password
      = some (challenge ++ "-"
          ++ bytesToHexStr (md5 (utf16leEncode (challenge ++ "-" ++ password)))) := by
  simp [computeResponse, h, calculate_md5_response]

/-- C2 witness: the legacy test vector of the spec, instantiated at the
challenge `xxxxxxxx` and password `testpwd`. -/
theorem C2_witness :
    pyStartsWith "xxxxxxxx" "2$" = false
    ∧ computeResponse "xxxxxxxx" "testpwd"
        = some ("xxxxxxxx" ++ "-"
            ++ bytesToHexStr (md5 (utf16leEncode ("xxxxxxxx" ++ "-" ++ "testpwd")))) :=
  ⟨by decide, C2_md5_variant "xxxxxxxx" "testpwd" (by decide)⟩

/-- C3 counterexample: at status 500 the retrieval does not raise a
`retrievalFailed` error; it returns Python `None`. -/
theorem C3_counterexample :
    (get_fritzbox_event_log 500 .null []).2 = .ok none
    ∧ (get_fritzbox_event_log 500 .null []).2 ≠ .error (.retrievalFailed 500) := by
  refine ⟨rfl, ?_⟩
  intro h
  simp [get_fritzbox_event_log] at h

/-- C3 (amended): on every non-200 status the function produces no log
sequence — it returns `None` rather than raising an error — and reports the
failure only through a printed message carrying the status code. -/
theorem C3_non200 (status : Nat) (body : Json) (excludes : List EItem)
    (h : status ≠ 200) :
    get_fritzbox_event_log status body excludes
      = (["Failed to retrieve event log. Status code: " ++ toString status], .ok none) := by
  simp [get_fritzbox_event_log, h]

/-- C3 witness: the amended statement instantiated at status 404. -/
theorem C3_witness :
    (404 : Nat) ≠ 200
    ∧ get_fritzbox_event_log 404 .null []
        = (["Failed to retrieve event log. Status code: " ++ toString (404 : Nat)], .ok none) :=
  ⟨by decide, C3_non200 404 .null [] (by decide)⟩

/-- C4: once the submission's XML answer carries a SID text, `get_sid` fails
with the invalid-credentials error exactly on the all-zero sentinel, and
otherwise succeeds with exactly that SID. -/
theorem C4_sid_validation (state : LoginState) (password cr sid : String)
    (send : String → Except Unit String)
    (hcr : computeResponse state.challenge password = some cr)
    (hsend : send cr = .ok sid) :
    (sid = "0000000000000000" →
        get_sid (.ok state) password send = .error .wrongCredentials)
    ∧ (sid ≠ "0000000000000000" → get_sid (.ok state) password send = .ok sid) := by
  constructor <;> intro h <;> simp [get_sid, hcr, hsend, h]

/-- C4 witness: both branches at a concrete legacy challenge, one transport
answering the sentinel and one answering a real SID. -/
theorem C4_witness :
    computeResponse "c" "p" = some (calculate_md5_response "c" "p")
    ∧ get_sid (.ok ⟨"c", 0⟩) "p" (fun _ => .ok "0000000000000000")
        = .error .wrongCredentials
    ∧ get_sid (.ok ⟨"c", 0⟩) "p" (fun _ => .ok "9c977765016899f8")
        = .ok "9c977765016899f8" :=
  ⟨rfl,
   (C4_sid_validation ⟨"c", 0⟩ "p" (calculate_md5_response "c" "p") "0000000000000000"
      (fun _ => .ok "0000000000000000") rfl rfl).1 rfl,
   (C4_sid_validation ⟨"c", 0⟩ "p" (calculate_md5_response "c" "p") "9c977765016899f8"
      (fun _ => .ok "9c977765016899f8") rfl rfl).2 (by decide)⟩

/-- C8: `get_last_timestamp` returns the integer parsed from the first
semicolon-delimited field of the final line when that parse succeeds, and 1
whenever the store is missing or unreadable, empty, or the field does not
parse. -/
theorem C8_last_timestamp (file : Option String) :
    (file = none → get_last_timestamp file = 1)
    ∧ (file = some "" → get_last_timestamp file = 1)
    ∧ (∀ content lastLine v, file = some content →
        (pyReadlines content).getLast? = some lastLine →
        pyIntList (pyStripList ((splitCh ';' (pyStripList lastLine)).headI)) = some v →
        get_last_timestamp file = v)
    ∧ (∀ content lastLine, file = some content →
        (pyReadlines content).getLast? = some lastLine →
        pyIntList (pyStripList ((splitCh ';' (pyStripList lastLine)).headI)) = none →
        get_last_timestamp file = 1) := by
  refine ⟨fun h => by subst h; rfl, fun h => by subst h; rfl, ?_, ?_⟩
  · intro content lastLine v hf hl hp
    subst hf
    simp [get_last_timestamp, hl, hp]
  · intro content lastLine hf hl hp
    subst hf
    simp [get_last_timestamp, hl, hp]

/-- C8 witness: on a two-line store whose final line is `15;b`, the parse
succeeds and 15 is returned. -/
theorem C8_witness :
    (pyReadlines "9;a\n15;b\n").getLast? = some ['1', '5', ';', 'b', '\n']
    ∧ pyIntList (pyStripList ((splitCh ';'
        (pyStripList ['1', '5', ';', 'b', '\n'])).headI)) = some 15
    ∧ get_last_timestamp (some "9;a\n15;b\n") = 15 :=
  ⟨by decide, by decide,
   (C8_last_timestamp (some "9;a\n15;b\n")).2.2.1 "9;a\n15;b\n"
     ['1', '5', ';', 'b', '\n'] 15 rfl (by decide) (by decide)⟩

theorem allParts_other (message : String) : ∀ (pre : List String) (post : List ExVal),
    (∀ s ∈ pre, strContains message s = true) →
    allParts message (pre.map ExVal.str ++ ExVal.other :: post) = .error .typeError := by
  intro pre
  induction pre with
  | nil => intro post _; simp [allParts]
  | cons s pre' ih =>
      intro post hpre
      simp [allParts, hpre s (List.mem_cons_self s pre'),
        ih post (fun x hx => hpre x (List.mem_cons_of_mem s hx))]

theorem is_excluded_full_welltyped (message : String) (items : List EItem) :
    is_excluded_full message (items.map EItem.toFull) = .ok (is_excluded message items) := by
  have hap : ∀ l : List String,
      allParts message (l.map ExVal.str) = .ok (l.all (strContains message)) := by
    intro l
    induction l with
    | nil => rfl
    | cons s r ihl => cases hc : strContains message s <;> simp [allParts, hc, ihl]
  induction items with
  | nil => rfl
  | cons it rest ih =>
      cases it with
      | str s =>
          cases hc : strContains message s <;>
            simp [EItem.toFull, is_excluded_full, is_excluded, hc, ih]
      | list l =>
          cases hc : l.all (strContains message) <;>
            simp [EItem.toFull, is_excluded_full, is_excluded, hap, hc, ih]
      | other => simp [EItem.toFull, is_excluded_full, is_excluded, ih]

/-- C10 counterexample: the exclusion list holding the single Python value
`[1]` — a list with a non-string member, so neither a single string nor a
list of strings — is not silently ignored: `is_excluded` raises a type error
instead of excluding nothing. -/
theorem C10_counterexample :
    is_excluded_full "some message" [.list [.other]] = .error .typeError
    ∧ (Except.error PyErr.typeError : Except PyErr Bool) ≠ .ok false :=
  ⟨rfl, by decide⟩

/-- C10 (amended): exclusion-list elements of non-string, non-list type are
silently ignored — filtering them away changes nothing, and a list of only
such elements excludes no message — but a list element with a non-string
member is not ignored: once its string members before the first non-string
member all match, evaluation raises a type error. -/
theorem C10_nonstring_semantics :
    (∀ (message : String) (excludes : List ExItem),
        is_excluded_full message excludes
          = is_excluded_full message (excludes.filter (fun it => it ≠ ExItem.other)))
    ∧ (∀ (message : String) (excludes : List ExItem),
        (∀ it ∈ excludes, it = ExItem.other) →
        is_excluded_full message excludes = .ok false)
    ∧ (∀ (message : String) (rest : List ExItem) (pre : List String) (post : List ExVal),
        (∀ s ∈ pre, strContains message s = true) →
        is_excluded_full message (.list (pre.map ExVal.str ++ .other :: post) :: rest)
          = .error .typeError) := by
  refine ⟨?_, ?_, ?_⟩
  · intro message excludes
    induction excludes with
    | nil => rfl
    | cons it rest ih =>
        cases it with
        | str s =>
            cases hc : strContains message s <;>
              simp [is_excluded_full, hc, ih, List.filter_cons]
        | list l =>
            cases hap : allParts message l with
            | error e => simp [is_excluded_full, hap, List.filter_cons]
            | ok b => cases b <;> simp [is_excluded_full, hap, ih, List.filter_cons]
        | other => simp [is_excluded_full, ih, List.filter_cons]
  · intro message excludes h
    induction excludes with
    | nil => rfl
    | cons it rest ih =>
        have hit := h it (by simp)
        subst hit
        exact ih fun x hx => h x (by simp [hx])
  · intro message rest pre post hpre
    simp [is_excluded_full, allParts_other message pre post hpre]

/-- C10 witness: both amended branches concretely — a list rule whose
matching string member precedes a non-string member raises, and a lone
foreign-typed element excludes nothing. -/
theorem C10_witness :
    (∀ s ∈ ["bar"], strContains "bar baz" s = true)
    ∧ is_excluded_full "bar baz"
        [.list (["bar"].map ExVal.str ++ .other :: [])] = .error .typeError
    ∧ (∀ it ∈ [ExItem.other], it = ExItem.other)
    ∧ is_excluded_full "any message" [ExItem.other] = .ok false :=
  ⟨by decide, C10_nonstring_semantics.2.2 "bar baz" [] ["bar"] [] (by decide),
   by decide, C10_nonstring_semantics.2.1 "any message" [ExItem.other] (by decide)⟩

theorem processEntries_eq (excludes : List EItem) (l : List RawEntry)
    (h : ∀ e ∈ l, is_excluded e.message excludes = false →
        unix_timestamp_from_strings e.date e.time ≠ none) :
    processEntries excludes l
      = .ok ((l.filter (fun e => ! is_excluded e.message excludes)).map
          (fun e => mkRecord e ((unix_timestamp_from_strings e.date e.time).getD 0))) := by
  induction l with
  | nil => rfl
  | cons e rest ih =>
      have hrest := fun x hx => h x (List.mem_cons_of_mem e hx)
      cases hexc : is_excluded e.message excludes
      · have hne := h e (List.mem_cons_self e rest) hexc
        rcases hts : unix_timestamp_from_strings e.date e.time with _ | ts
        · exact absurd hts hne
        · simp [processEntries, hexc, hts, ih hrest, List.filter_cons, Except.map]
      · simp [processEntries, hexc, ih hrest, List.filter_cons]

/-- C5: on a success status with a well-formed body whose log entries all
carry parseable dates and times (for the entries its rules do not exclude),
the retrieval returns exactly the reversal of the newest-first source
sequence restricted to non-excluded entries — oldest first — each 4-tuple
converted to a record of the derived timestamp, date, time, message and
code. -/
theorem C5_filtered_reversal (body : Json) (entries : List RawEntry)
    (excludes : List EItem)
    (hex : extractLog body = some entries)
    (hts : ∀ e ∈ entries, is_excluded e.message excludes = false →
        unix_timestamp_from_strings e.date e.time ≠ none) :
    get_fritzbox_event_log 200 body excludes
      = ([], .ok (some ((entries.filter
            (fun e => ! is_excluded e.message excludes)).reverse.map
          (fun e => mkRecord e ((unix_timestamp_from_strings e.date e.time).getD 0))))) := by
  have hrev : ∀ e ∈ entries.reverse, is_excluded e.message excludes = false →
      unix_timestamp_from_strings e.date e.time ≠ none :=
    fun e he => hts e (List.mem_reverse.mp he)
  simp only [get_fritzbox_event_log, hex,
    processEntries_eq excludes entries.reverse hrev, List.filter_reverse]
  simp

/-- C5 witness: a body carrying two newest-first entries, the newer one
excluded by a string rule; the result is the single older record, with its
timestamp derived from date and time. -/
theorem C5_witness :
    extractLog (Json.obj [("data", Json.obj [("log", Json.arr
        [Json.arr [Json.str "02.01.24", Json.str "10:00:00",
            Json.str "noise here", Json.str "c2"],
         Json.arr [Json.str "01.01.24", Json.str "09:00:00",
            Json.str "boot", Json.str "c1"]])])])
      = some [⟨"02.01.24", "10:00:00", "noise here", "c2"⟩,
              ⟨"01.01.24", "09:00:00", "boot", "c1"⟩]
    ∧ (∀ e ∈ [(⟨"02.01.24", "10:00:00", "noise here", "c2"⟩ : RawEntry),
              ⟨"01.01.24", "09:00:00", "boot", "c1"⟩],
        is_excluded e.message [.str "noise"] = false →
        unix_timestamp_from_strings e.date e.time ≠ none)
    ∧ get_fritzbox_event_log 200
        (Json.obj [("data", Json.obj [("log", Json.arr
          [Json.arr [Json.str "02.01.24", Json.str "10:00:00",
              Json.str "noise here", Json.str "c2"],
           Json.arr [Json.str "01.01.24", Json.str "09:00:00",
              Json.str "boot", Json.str "c1"]])])]) [.str "noise"]
        = ([], .ok (some [⟨"1704099600", "01.01.24", "09:00:00", "boot", "c1"⟩])) :=
  ⟨by decide, by decide,
   (C5_filtered_reversal _
      [⟨"02.01.24", "10:00:00", "noise here", "c2"⟩,
       ⟨"01.01.24", "09:00:00", "boot", "c1"⟩]
      [.str "noise"] (by decide) (by decide)).trans (by decide)⟩

theorem writeRows_eq (lastTs : Int) (data : List Record)
    (h : ∀ r ∈ data, pyInt r.Timestamp ≠ none) :
    writeRows stdFields lastTs data
      = (((data.filter (fun r => lastTs < (pyInt r.Timestamp).getD 0)).map
            (fun r => csvRow (stdFields.map (recordGet r)))).foldr (· ++ ·) "",
         none) := by
  induction data with
  | nil => rfl
  | cons r rest ih =>
      have hrest := fun x hx => h x (List.mem_cons_of_mem r hx)
      rcases hp : pyInt r.Timestamp with _ | ts
      · exact absurd hp (h r (List.mem_cons_self r rest))
      · have hsf : stdFields.all (stdFields.contains ·) = true := by decide
        by_cases hlt : lastTs < ts
        · simp [writeRows, hp, hsf, hlt, ih hrest, List.filter_cons]
        · simp [writeRows, hp, hlt, ih hrest, List.filter_cons]

/-- C7: with the standard field order and parseable entry timestamps, the
persister's result is the old content (plus a header when the store is new)
followed by the rows of exactly those entries whose timestamp is strictly
greater than the store's last persisted timestamp, in the given order; the
previously persisted text is untouched in place. -/
theorem C7_append_only_newer (content : Option String) (data : List Record)
    (h : ∀ r ∈ data, pyInt r.Timestamp ≠ none) :
    create_or_append_to_csv content data stdFields
      = ((content.getD "" ++ (if content.isSome then "" else csvRow stdFields))
          ++ ((data.filter (fun r =>
                get_last_timestamp (some (content.getD ""))
                  < (pyInt r.Timestamp).getD 0)).map
              (fun r => csvRow (stdFields.map (recordGet r)))).foldr (· ++ ·) "",
         none) := by
  simp only [create_or_append_to_csv, writeRows_eq _ _ h]

/-- C7 witness: the spec's persister example — timestamps 100, 200, 50, 300
against a store whose last timestamp is 150 append exactly the rows 200 and
300, in that order, after the untouched old content. -/
theorem C7_witness :
    (∀ r ∈ [(⟨"100", "d1", "t1", "m1", "c1"⟩ : Record),
            ⟨"200", "d2", "t2", "m2", "c2"⟩,
            ⟨"50", "d3", "t3", "m3", "c3"⟩,
            ⟨"300", "d4", "t4", "m4", "c4"⟩], pyInt r.Timestamp ≠ none)
    ∧ get_last_timestamp (some "150;a;b;c;d\x0d\n") = 150
    ∧ create_or_append_to_csv (some "150;a;b;c;d\x0d\n")
        [⟨"100", "d1", "t1", "m1", "c1"⟩, ⟨"200", "d2", "t2", "m2", "c2"⟩,
         ⟨"50", "d3", "t3", "m3", "c3"⟩, ⟨"300", "d4", "t4", "m4", "c4"⟩]
        stdFields
        = ("150;a;b;c;d\x0d\n200;d2;t2;m2;c2\x0d\n300;d4;t4;m4;c4\x0d\n", none) :=
  ⟨by decide, by decide,
   (C7_append_only_newer (some "150;a;b;c;d\x0d\n")
      [⟨"100", "d1", "t1", "m1", "c1"⟩, ⟨"200", "d2", "t2", "m2", "c2"⟩,
       ⟨"50", "d3", "t3", "m3", "c3"⟩, ⟨"300", "d4", "t4", "m4", "c4"⟩]
      (by decide)).trans (by decide)⟩

/-! ## Supporting lemmas for the round-trip claim -/

theorem isDig_ne {c : Char} (h : isDig c = true) {d : Char} (hd : isDig d = false) :
    c ≠ d := fun he => by subst he; rw [h] at hd; cases hd

theorem isDig_not_space {c : Char} (h : isDig c = true) : isPySpace c = false := by
  cases hc : isPySpace c
  · rfl
  · exfalso
    simp [isPySpace] at hc
    rcases hc with ((((rfl | rfl) | rfl) | rfl) | rfl) | rfl <;>
      exact absurd h (by decide)

theorem isDig_not_quotey {c : Char} (h : isDig c = true) :
    (decide (c = ';') || decide (c = '"') || decide (c = '\n') || decide (c = '\x0d'))
      = false := by
  cases hc : (decide (c = ';') || decide (c = '"') || decide (c = '\n')
      || decide (c = '\x0d'))
  · rfl
  · exfalso
    simp at hc
    rcases hc with ((rfl | rfl) | rfl) | rfl <;> exact absurd h (by decide)

theorem digits_no_mem {ts : List Char} (hdig : ts.all isDig = true) {d : Char}
    (hd : isDig d = false) : d ∉ ts :=
  fun hm => absurd (List.all_eq_true.mp hdig d hm) (by simp [hd])

theorem dropWhile_false {p : Char → Bool} {l : List Char}
    (h : ∀ c ∈ l, p c = false) : l.dropWhile p = l := by
  cases l with
  | nil => rfl
  | cons c r => rw [List.dropWhile_cons, h c (List.mem_cons_self c r)]; simp

theorem strip_eq_self {l : List Char} (h : ∀ c ∈ l, isPySpace c = false) :
    pyStripList l = l := by
  unfold pyStripList
  rw [dropWhile_false h,
    dropWhile_false (fun c hc => h c (List.mem_reverse.mp hc)), List.reverse_reverse]

theorem digits_strip {ts : List Char} (hdig : ts.all isDig = true) :
    pyStripList ts = ts :=
  strip_eq_self (fun c hc => isDig_not_space (List.all_eq_true.mp hdig c hc))

theorem pyIntList_digits {ts : List Char} (hne : ts ≠ []) (hdig : ts.all isDig = true) :
    pyIntList ts = some (Int.ofNat (digitsVal ts)) := by
  rcases ts with _ | ⟨d, r⟩
  · exact absurd rfl hne
  · have hd : isDig d = true := List.all_eq_true.mp hdig d (List.mem_cons_self d r)
    have hfil : (d :: r).filter (fun c => decide (c ≠ '_')) = d :: r :=
      List.filter_eq_self.mpr (fun a ha => by
        have := isDig_ne (List.all_eq_true.mp hdig a ha) (d := '_') (by decide)
        simpa using this)
    simp only [pyIntList, digits_strip hdig, List.headI_cons,
      if_neg (isDig_ne hd (d := '-') (by decide)),
      if_neg (isDig_ne hd (d := '+') (by decide)), pyIntCore,
      splitCh_no_sep (digits_no_mem hdig (d := '_') (by decide))]
    rw [if_pos ?_]
    · rw [hfil]
    · simp [okDigitGroup, hdig]

theorem dropWhile_append_cons {p : Char → Bool} (a : List Char) {x : Char}
    (hx : p x = false) (b : List Char) :
    (a ++ x :: b).dropWhile p = a.dropWhile p ++ x :: b := by
  induction a with
  | nil => simp [List.dropWhile_cons, hx]
  | cons c r ih =>
      rw [List.cons_append, List.dropWhile_cons, List.dropWhile_cons]
      cases hpc : p c
      · simp
      · simpa using ih

theorem strip_field0 {ts : List Char} (tail : List Char) (hne : ts ≠ [])
    (hdig : ts.all isDig = true) :
    pyStripList (ts ++ ';' :: tail)
      = ts ++ ';' :: (tail.reverse.dropWhile isPySpace).reverse := by
  unfold pyStripList
  have hfront : (ts ++ ';' :: tail).dropWhile isPySpace = ts ++ ';' :: tail := by
    rcases ts with _ | ⟨d, r⟩
    · exact absurd rfl hne
    · rw [List.cons_append, List.dropWhile_cons,
        isDig_not_space (List.all_eq_true.mp hdig d (List.mem_cons_self d r))]
      simp
  rw [hfront, List.reverse_append, List.reverse_cons, List.append_assoc,
    List.singleton_append, dropWhile_append_cons _ (by decide),
    List.reverse_append, List.reverse_cons, List.reverse_reverse,
    List.append_assoc, List.singleton_append]

theorem parse_field0 {ts : List Char} (tail : List Char) (hne : ts ≠ [])
    (hdig : ts.all isDig = true) :
    pyIntList (pyStripList ((splitCh ';' (pyStripList (ts ++ ';' :: tail))).headI))
      = some (Int.ofNat (digitsVal ts)) := by
  rw [strip_field0 tail hne hdig,
    splitCh_append _ (digits_no_mem hdig (d := ';') (by decide)), List.headI_cons,
    digits_strip hdig, pyIntList_digits hne hdig]

theorem getLast?_cons_of_ne {α : Type} (c : α) {l : List α} (h : l ≠ []) :
    (c :: l).getLast? = l.getLast? := by
  rcases l with _ | ⟨x, r⟩
  · exact absurd rfl h
  · exact List.getLast?_cons_cons

theorem transNL_clean {body : List Char} (hr : '\x0d' ∉ body) (hn : '\n' ∉ body) :
    transNL (body ++ ['\x0d', '\n']) = body ++ ['\n'] := by
  induction body with
  | nil => decide
  | cons c r ih =>
      have hc : c ≠ '\x0d' := fun h => hr (h ▸ List.mem_cons_self c r)
      rw [List.cons_append, transNL.eq_4 c _ (fun _ hcc _ => hc hcc) (fun hcc => hc hcc),
        ih (fun h => hr (List.mem_cons_of_mem c h)) (fun h => hn (List.mem_cons_of_mem c h)),
        List.cons_append]

theorem transNL_append {A rest : List Char} (hh : rest.headI ≠ '\n') :
    transNL (A ++ rest) = transNL A ++ transNL rest := by
  induction A using transNL.induct with
  | case1 => simp [transNL]
  | case2 r ih =>
      rw [List.cons_append, List.cons_append, transNL.eq_2, transNL.eq_2, ih,
        List.cons_append]
  | case3 r hside ih =>
      have hside' : ∀ r1, r ++ rest = '\n' :: r1 → False := by
        intro r1 heq
        rcases r with _ | ⟨c0, r'⟩
        · rw [List.nil_append] at heq
          rw [heq] at hh
          simp at hh
        · rw [List.cons_append] at heq
          injection heq with h1 h2
          exact hside r' (by rw [h1])
      rw [List.cons_append, transNL.eq_3 _ hside', transNL.eq_3 _ hside, ih,
        List.cons_append]
  | case4 c r hside1 hside2 ih =>
      rw [List.cons_append, transNL.eq_4 c _ (fun _ hc _ => hside2 hc) hside2,
        transNL.eq_4 c _ hside1 hside2, ih, List.cons_append]

theorem transNL_ends {A : List Char}
    (h : A.getLast? = some '\n' ∨ A.getLast? = some '\x0d') :
    ∃ Y, transNL A = Y ++ ['\n'] := by
  induction A using transNL.induct with
  | case1 => simp at h
  | case2 r ih =>
      rcases hr : r with _ | ⟨c0, r'⟩
      · exact ⟨[], by subst hr; decide⟩
      · subst hr
        have h' : (c0 :: r').getLast? = some '\n' ∨ (c0 :: r').getLast? = some '\x0d' := by
          rcases h with h | h
          · exact Or.inl (by rw [← h]; symm; exact (List.getLast?_cons_cons).trans List.getLast?_cons_cons)
          · exact Or.inr (by rw [← h]; symm; exact (List.getLast?_cons_cons).trans List.getLast?_cons_cons)
        obtain ⟨Y, hY⟩ := ih h'
        exact ⟨'\n' :: Y, by rw [transNL.eq_2, hY, List.cons_append]⟩
  | case3 r hside ih =>
      rcases hr : r with _ | ⟨c0, r'⟩
      · exact ⟨[], by subst hr; decide⟩
      · subst hr
        have h' : (c0 :: r').getLast? = some '\n' ∨ (c0 :: r').getLast? = some '\x0d' := by
          rcases h with h | h
          · exact Or.inl (by rw [← h]; symm; exact List.getLast?_cons_cons)
          · exact Or.inr (by rw [← h]; symm; exact List.getLast?_cons_cons)
        obtain ⟨Y, hY⟩ := ih h'
        exact ⟨'\n' :: Y, by rw [transNL.eq_3 _ hside, hY, List.cons_append]⟩
  | case4 c r hside1 hside2 ih =>
      rcases hr : r with _ | ⟨c0, r'⟩
      · subst hr
        have hcn : c = '\n' := by
          rcases h with h | h
          · simpa [List.getLast?_singleton] using h
          · exact absurd (by simpa [List.getLast?_singleton] using h) (fun hc => hside2 hc)
        subst hcn
        exact ⟨[], by rw [transNL.eq_4 _ _ hside1 hside2]; rfl⟩
      · subst hr
        have h' : (c0 :: r').getLast? = some '\n' ∨ (c0 :: r').getLast? = some '\x0d' := by
          rcases h with h | h
          · exact Or.inl (by rw [← h]; symm; exact List.getLast?_cons_cons)
          · exact Or.inr (by rw [← h]; symm; exact List.getLast?_cons_cons)
        obtain ⟨Y, hY⟩ := ih h'
        exact ⟨c :: Y, by rw [transNL.eq_4 _ _ hside1 hside2, hY, List.cons_append]⟩

theorem linesAux_append {xs : List Char} (h : xs.getLast? = some '\n') :
    ∀ (ys acc : List Char), linesAux (xs ++ ys) acc = linesAux xs acc ++ linesAux ys [] := by
  induction xs with
  | nil => simp at h
  | cons c r ih =>
      intro ys acc
      by_cases hc : c = '\n'
      · subst hc
        rw [List.cons_append, linesAux.eq_2, if_pos rfl, linesAux.eq_2, if_pos rfl]
        rcases hr : r with _ | ⟨c0, r'⟩
        · simp [linesAux]
        · have h' : r.getLast? = some '\n' := by
            rw [hr] at h ⊢
            rw [← h]
            symm
            exact List.getLast?_cons_cons
          rw [← hr, ih h' ys [], List.cons_append]
      · have hrne : r ≠ [] := by
          rintro rfl
          rw [List.getLast?_singleton] at h
          exact hc (Option.some.inj h)
        have h' : r.getLast? = some '\n' := by
          rw [← h]
          symm
          exact getLast?_cons_of_ne c hrne
        rw [List.cons_append, linesAux.eq_2, if_neg hc, linesAux.eq_2, if_neg hc,
          ih h' ys (c :: acc)]

theorem linesAux_single {body : List Char} (hn : '\n' ∉ body) :
    ∀ acc, linesAux (body ++ ['\n']) acc = [acc.reverse ++ body ++ ['\n']] := by
  induction body with
  | nil => intro acc; simp [linesAux]
  | cons c r ih =>
      intro acc
      have hc : c ≠ '\n' := fun h => hn (h ▸ List.mem_cons_self c r)
      rw [List.cons_append, linesAux.eq_2, if_neg hc,
        ih (fun h => hn (List.mem_cons_of_mem c h)) (c :: acc)]
      simp

theorem mem_joinSemi {c : Char} : ∀ {L : List (List Char)}, c ∈ joinSemi L →
    c = ';' ∨ ∃ g ∈ L, c ∈ g := by
  intro L
  induction L with
  | nil => intro h; simp [joinSemi] at h
  | cons f rest ih =>
      intro h
      rcases rest with _ | ⟨g0, rest'⟩
      · exact Or.inr ⟨f, by simp, by simpa [joinSemi] using h⟩
      · rw [joinSemi.eq_3 f (g0 :: rest') (by simp)] at h
        rcases List.mem_append.mp h with hf | hsc
        · exact Or.inr ⟨f, by simp, hf⟩
        · rcases List.mem_cons.mp hsc with rfl | hj
          · exact Or.inl rfl
          · rcases ih hj with h' | ⟨g, hg, hcg⟩
            · exact Or.inl h'
            · exact Or.inr ⟨g, List.mem_cons_of_mem f hg, hcg⟩

theorem mem_csvField {c : Char} {f : String} (h : c ∈ (csvField f).data) :
    c = '"' ∨ c ∈ f.data := by
  rw [csvField] at h
  cases hq : needsQuote f
  · rw [hq] at h
    simp at h
    exact Or.inr h
  · rw [hq, if_pos rfl, String.data_append, String.data_append] at h
    rcases List.mem_append.mp h with h1 | h2
    · rcases List.mem_append.mp h1 with h0 | hmid
      · simp [String.data] at h0
        exact Or.inl h0
      · obtain ⟨l, hl, hcl⟩ := List.mem_flatten.mp hmid
        obtain ⟨c', hc', hdup⟩ := List.mem_map.mp hl
        by_cases hcq : c' = '"'
        · rw [← hdup, if_pos hcq] at hcl
          simp at hcl
          exact Or.inl hcl
        · rw [← hdup, if_neg hcq] at hcl
          simp at hcl
          exact Or.inr (hcl ▸ hc')
    · simp [String.data] at h2
      exact Or.inl h2

theorem listMax_sorted {l : List Int} (hs : List.Pairwise (· ≤ ·) l) (hne : l ≠ []) :
    listMax l = l.getLast? := by
  induction l with
  | nil => exact absurd rfl hne
  | cons x r ih =>
      rcases hr : r with _ | ⟨y, r'⟩
      · rfl
      · subst hr
        have ihr := ih (List.pairwise_cons.mp hs).2 (List.cons_ne_nil y r')
        rcases hLm : (y :: r').getLast? with _ | m
        · have hsome := List.getLast?_isSome.mpr (List.cons_ne_nil y r')
          rw [hLm] at hsome
          simp at hsome
        · have hxm : x ≤ m :=
            (List.pairwise_cons.mp hs).1 m (List.mem_of_getLast?_eq_some hLm)
          calc listMax (x :: y :: r') = some (max x m) := by
                rw [listMax.eq_2, ihr, hLm]
            _ = some m := by rw [max_eq_right hxm]
            _ = (y :: r').getLast? := hLm.symm
            _ = (x :: y :: r').getLast? := (List.getLast?_cons_cons).symm

theorem needsQuote_digits {s : String} (hdig : s.data.all isDig = true) :
    needsQuote s = false := by
  cases han : needsQuote s
  · rfl
  · exfalso
    rw [needsQuote] at han
    obtain ⟨c, hc, hp⟩ := List.any_eq_true.mp han
    rw [isDig_not_quotey (List.all_eq_true.mp hdig c hc)] at hp
    cases hp

theorem csvField_digits {s : String} (hdig : s.data.all isDig = true) :
    csvField s = s := by
  rw [csvField, needsQuote_digits hdig]
  simp

theorem csvRow_data (fields : List String) :
    (csvRow fields).data
      = joinSemi (fields.map (fun f => (csvField f).data)) ++ ['\x0d', '\n'] := rfl

theorem csvRow_ends (fields : List String) :
    (csvRow fields).data.getLast? = some '\n' := by
  rw [csvRow_data, show (['\x0d', '\n'] : List Char) = ['\x0d'] ++ ['\n'] from rfl,
    ← List.append_assoc, List.getLast?_concat]

theorem row_shape (r : Record) (hneT : r.Timestamp.data ≠ [])
    (hdigT : r.Timestamp.data.all isDig = true)
    (hclean : ∀ f ∈ [r.Date, r.Time, r.Message, r.Code],
        '\n' ∉ f.data ∧ '\x0d' ∉ f.data) :
    ∃ tail, (csvRow (stdFields.map (recordGet r))).data
        = (r.Timestamp.data ++ ';' :: tail) ++ ['\x0d', '\n']
      ∧ '\n' ∉ r.Timestamp.data ++ ';' :: tail
      ∧ '\x0d' ∉ r.Timestamp.data ++ ';' :: tail := by
  have hmap : stdFields.map (recordGet r)
      = [r.Timestamp, r.Date, r.Time, r.Message, r.Code] := by
    simp [stdFields, recordGet]
  refine ⟨joinSemi [(csvField r.Date).data, (csvField r.Time).data,
      (csvField r.Message).data, (csvField r.Code).data], ?_, ?_, ?_⟩
  · rw [csvRow_data, hmap]
    have hm2 : [r.Timestamp, r.Date, r.Time, r.Message, r.Code].map
        (fun f => (csvField f).data)
        = (csvField r.Timestamp).data :: [(csvField r.Date).data, (csvField r.Time).data,
            (csvField r.Message).data, (csvField r.Code).data] := by simp
    rw [hm2, joinSemi.eq_3 _ _ (by simp), csvField_digits hdigT]
  · intro hmem
    rcases List.mem_append.mp hmem with hT | hC
    · exact digits_no_mem hdigT (by decide) hT
    · rcases List.mem_cons.mp hC with he | hj
      · exact absurd he (by decide)
      · rcases mem_joinSemi hj with he | ⟨g, hg, hcg⟩
        · exact absurd he (by decide)
        · simp only [List.mem_cons, List.mem_singleton, List.not_mem_nil, or_false] at hg
          rcases hg with rfl | rfl | rfl | rfl <;>
            rcases mem_csvField hcg with he | hf <;>
            first
              | exact absurd he (by decide)
              | exact (hclean _ (by simp)).1 hf
  · intro hmem
    rcases List.mem_append.mp hmem with hT | hC
    · exact digits_no_mem hdigT (by decide) hT
    · rcases List.mem_cons.mp hC with he | hj
      · exact absurd he (by decide)
      · rcases mem_joinSemi hj with he | ⟨g, hg, hcg⟩
        · exact absurd he (by decide)
        · simp only [List.mem_cons, List.mem_singleton, List.not_mem_nil, or_false] at hg
          rcases hg with rfl | rfl | rfl | rfl <;>
            rcases mem_csvField hcg with he | hf <;>
            first
              | exact absurd he (by decide)
              | exact (hclean _ (by simp)).2 hf

theorem foldr_append_str (ls : List String) (s : String) :
    ls.foldr (· ++ ·) s = ls.foldr (· ++ ·) "" ++ s := by
  induction ls with
  | nil =>
      exact (String.ext (by simp [String.data_append])).symm
  | cons f rest ih =>
      simp only [List.foldr_cons]
      rw [ih, ← String.append_assoc]

theorem rows_data_end {ls : List String} (h : ∀ s ∈ ls, s.data.getLast? = some '\n') :
    (ls.foldr (· ++ ·) "").data = []
      ∨ (ls.foldr (· ++ ·) "").data.getLast? = some '\n' := by
  induction ls with
  | nil => exact Or.inl rfl
  | cons f rest ih =>
      right
      simp only [List.foldr_cons, String.data_append]
      rcases ih (fun s hs => h s (List.mem_cons_of_mem f hs)) with hnil | hend
      · rw [hnil, List.append_nil]
        exact h f (List.mem_cons_self f rest)
      · rw [List.getLast?_append, hend]
        rfl

/-- C9 counterexample: appending timestamps 200, 300, 250 (all newer than the
store's last timestamp 150), the read-back last timestamp is 250 — the last
appended row — while the greatest timestamp written is 300. -/
theorem C9_counterexample :
    get_last_timestamp (some (create_or_append_to_csv (some "150;a;b;c;d\x0d\n")
        [⟨"200", "d", "t", "m", "c"⟩, ⟨"300", "d", "t", "m", "c"⟩,
         ⟨"250", "d", "t", "m", "c"⟩] stdFields).1) = 250
    ∧ listMax (([(⟨"200", "d", "t", "m", "c"⟩ : Record),
          ⟨"300", "d", "t", "m", "c"⟩, ⟨"250", "d", "t", "m", "c"⟩].filter
          (fun r => get_last_timestamp (some "150;a;b;c;d\x0d\n")
              < (pyInt r.Timestamp).getD 0)).map
          (fun r => (pyInt r.Timestamp).getD 0)) = some 300
    ∧ (250 : Int) ≠ 300 :=
  ⟨by decide, by decide, by decide⟩

/-- C9 (amended): for a store that is missing, empty or line-terminated, and
entries whose timestamp fields are nonempty digit strings, whose other fields
carry no line-break characters, whose timestamps are monotonically
increasing, and of which at least one is newer than the store's last
timestamp, the last timestamp read back after the append equals the greatest
timestamp among the entries written in that call. -/
theorem C9_roundtrip (content : Option String) (data : List Record)
    (hterm : storeLineTerminated content = true)
    (hdig : ∀ r ∈ data, r.Timestamp.data ≠ [] ∧ r.Timestamp.data.all isDig = true)
    (hclean : ∀ r ∈ data, ∀ f ∈ [r.Date, r.Time, r.Message, r.Code],
        '\n' ∉ f.data ∧ '\x0d' ∉ f.data)
    (hmono : List.Pairwise (· ≤ ·) (data.map (fun r => (pyInt r.Timestamp).getD 0)))
    (hsome : ∃ r ∈ data, get_last_timestamp (some (content.getD ""))
        < (pyInt r.Timestamp).getD 0) :
    listMax ((data.filter (fun r => get_last_timestamp (some (content.getD ""))
          < (pyInt r.Timestamp).getD 0)).map (fun r => (pyInt r.Timestamp).getD 0))
      = some (get_last_timestamp
          (some (create_or_append_to_csv content data stdFields).1)) := by
  have hpy : ∀ r ∈ data, pyInt r.Timestamp ≠ none := by
    intro r hr
    rw [pyInt, pyIntList_digits (hdig r hr).1 (hdig r hr).2]
    simp
  set W := data.filter (fun r => get_last_timestamp (some (content.getD ""))
      < (pyInt r.Timestamp).getD 0) with hW
  have hWne : W ≠ [] := by
    obtain ⟨r, hr, hlt⟩ := hsome
    exact List.ne_nil_of_mem (List.mem_filter.mpr ⟨hr, by simpa using hlt⟩)
  set rL := W.getLast hWne with hrLdef
  have hrLdata : rL ∈ data := List.mem_of_mem_filter (List.getLast_mem hWne)
  obtain ⟨tail, hrow, hnN, hnR⟩ :=
    row_shape rL (hdig rL hrLdata).1 (hdig rL hrLdata).2 (hclean rL hrLdata)
  have hWdec : W.dropLast ++ [rL] = W := List.dropLast_append_getLast hWne
  have hfold : (W.map (fun r => csvRow (stdFields.map (recordGet r)))).foldr (· ++ ·) ""
      = ((W.dropLast.map (fun r => csvRow (stdFields.map (recordGet r)))).foldr
            (· ++ ·) "")
        ++ csvRow (stdFields.map (recordGet rL)) := by
    conv_lhs => rw [← hWdec]
    rw [List.map_append, List.foldr_append]
    simp only [List.map_cons, List.map_nil, List.foldr_cons, List.foldr_nil,
      String.append_empty]
    rw [foldr_append_str]
  have hca0 : create_or_append_to_csv content data stdFields
      = ((content.getD "" ++ (if content.isSome then "" else csvRow stdFields))
          ++ (W.map (fun r => csvRow (stdFields.map (recordGet r)))).foldr (· ++ ·) "",
         none) := by
    rw [hW]
    simp only [create_or_append_to_csv, writeRows_eq _ _ hpy]
  have hca : (create_or_append_to_csv content data stdFields).1
      = ((content.getD "" ++ (if content.isSome then "" else csvRow stdFields))
          ++ (W.dropLast.map (fun r => csvRow (stdFields.map (recordGet r)))).foldr
              (· ++ ·) "")
        ++ csvRow (stdFields.map (recordGet rL)) := by
    rw [hca0, hfold, ← String.append_assoc]
  have hAend : ((content.getD "" ++ (if content.isSome then "" else csvRow stdFields))
        ++ (W.dropLast.map (fun r => csvRow (stdFields.map (recordGet r)))).foldr
            (· ++ ·) "").data = []
      ∨ (((content.getD "" ++ (if content.isSome then "" else csvRow stdFields))
        ++ (W.dropLast.map (fun r => csvRow (stdFields.map (recordGet r)))).foldr
            (· ++ ·) "").data.getLast? = some '\n'
        ∨ ((content.getD "" ++ (if content.isSome then "" else csvRow stdFields))
        ++ (W.dropLast.map (fun r => csvRow (stdFields.map (recordGet r)))).foldr
            (· ++ ·) "").data.getLast? = some '\x0d') := by
    rw [String.data_append]
    rcases @rows_data_end (W.dropLast.map (fun r => csvRow (stdFields.map (recordGet r))))
        (fun s hs => by
          obtain ⟨r', hr', rfl⟩ := List.mem_map.mp hs
          exact csvRow_ends _) with hmid0 | hmidend
    · rw [hmid0, List.append_nil, String.data_append]
      rcases content with _ | c
      · right; left
        simpa using csvRow_ends stdFields
      · simp only [storeLineTerminated] at hterm
        simp only [Bool.or_eq_true, List.isEmpty_iff, decide_eq_true_eq] at hterm
        simp only [Option.getD_some, Option.isSome_some, if_pos, List.append_nil]
        rcases hterm with (h0 | h1) | h2
        · exact Or.inl (by simp [h0])
        · exact Or.inr (Or.inl (by simpa using h1))
        · exact Or.inr (Or.inr (by simpa using h2))
    · right; left
      rw [List.getLast?_append, hmidend]
      rfl
  have hrest_head : ((rL.Timestamp.data ++ ';' :: tail) ++ ['\x0d', '\n']).headI ≠ '\n' := by
    rcases hT : rL.Timestamp.data with _ | ⟨d, r'⟩
    · exact absurd hT (hdig rL hrLdata).1
    · have hd : isDig d = true := by
        have := (hdig rL hrLdata).2
        rw [hT] at this
        exact List.all_eq_true.mp this d (List.mem_cons_self d r')
      simp only [List.cons_append, List.headI_cons]
      exact isDig_ne hd (by decide)
  have hlines : (pyReadlines (((content.getD ""
          ++ (if content.isSome then "" else csvRow stdFields))
        ++ (W.dropLast.map (fun r => csvRow (stdFields.map (recordGet r)))).foldr
            (· ++ ·) "")
        ++ csvRow (stdFields.map (recordGet rL)))).getLast?
      = some ((rL.Timestamp.data ++ ';' :: tail) ++ ['\n']) := by
    rw [pyReadlines, String.data_append, hrow, transNL_append hrest_head,
      transNL_clean hnR hnN]
    rcases hAend with h0 | hnl | hcr
    · rw [h0, transNL.eq_1, List.nil_append, linesAux_single hnN []]
      simp
    · obtain ⟨Y, hY⟩ := transNL_ends (Or.inl hnl)
      rw [hY, linesAux_append (List.getLast?_concat Y) _ [],
        linesAux_single hnN []]
      rw [show ([([] : List Char).reverse ++ (rL.Timestamp.data ++ ';' :: tail) ++ ['\n']]
            : List (List Char))
          = [(rL.Timestamp.data ++ ';' :: tail) ++ ['\n']] from by simp]
      exact List.getLast?_concat _
    · obtain ⟨Y, hY⟩ := transNL_ends (Or.inr hcr)
      rw [hY, linesAux_append (List.getLast?_concat Y) _ [],
        linesAux_single hnN []]
      rw [show ([([] : List Char).reverse ++ (rL.Timestamp.data ++ ';' :: tail) ++ ['\n']]
            : List (List Char))
          = [(rL.Timestamp.data ++ ';' :: tail) ++ ['\n']] from by simp]
      exact List.getLast?_concat _
  have hgl : get_last_timestamp (some ((create_or_append_to_csv content data stdFields).1))
      = Int.ofNat (digitsVal rL.Timestamp.data) := by
    rw [hca]
    simp only [get_last_timestamp, hlines]
    rw [show (rL.Timestamp.data ++ ';' :: tail) ++ ['\n']
          = rL.Timestamp.data ++ ';' :: (tail ++ ['\n']) from by
        rw [List.append_assoc, List.cons_append]]
    rw [parse_field0 (tail ++ ['\n']) (hdig rL hrLdata).1 (hdig rL hrLdata).2]
  have hpair : List.Pairwise (· ≤ ·) (W.map (fun r => (pyInt r.Timestamp).getD 0)) := by
    refine List.Pairwise.sublist ?_ hmono
    exact List.Sublist.map _ (List.filter_sublist data)
  have hmapne : W.map (fun r => (pyInt r.Timestamp).getD 0) ≠ [] := by
    simpa using hWne
  rw [hgl, listMax_sorted hpair hmapne]
  conv_lhs => rw [← hWdec]
  simp only [List.map_append, List.map_cons, List.map_nil]
  rw [List.getLast?_concat, pyInt,
    pyIntList_digits (hdig rL hrLdata).1 (hdig rL hrLdata).2]
  rfl

/-- C9 witness: the amended statement at a terminated store with last
timestamp 150 and increasing new timestamps 200 and 300; the read-back equals
300. -/
theorem C9_witness :
    storeLineTerminated (some "150;a;b;c;d\x0d\n") = true
    ∧ (∀ r ∈ [(⟨"200", "d2", "t2", "m2", "c2"⟩ : Record),
          ⟨"300", "d4", "t4", "m4", "c4"⟩],
        r.Timestamp.data ≠ [] ∧ r.Timestamp.data.all isDig = true)
    ∧ List.Pairwise (· ≤ ·)
        ([(⟨"200", "d2", "t2", "m2", "c2"⟩ : Record),
          ⟨"300", "d4", "t4", "m4", "c4"⟩].map
          (fun r => (pyInt r.Timestamp).getD 0))
    ∧ listMax (([(⟨"200", "d2", "t2", "m2", "c2"⟩ : Record),
          ⟨"300", "d4", "t4", "m4", "c4"⟩].filter
          (fun r => get_last_timestamp (some ((some "150;a;b;c;d\x0d\n").getD ""))
              < (pyInt r.Timestamp).getD 0)).map
          (fun r => (pyInt r.Timestamp).getD 0))
        = some (get_last_timestamp
            (some (create_or_append_to_csv (some "150;a;b;c;d\x0d\n")
              [⟨"200", "d2", "t2", "m2", "c2"⟩, ⟨"300", "d4", "t4", "m4", "c4"⟩]
              stdFields).1)) :=
  ⟨by decide, by decide, by decide,
   C9_roundtrip (some "150;a;b;c;d\x0d\n")
     [⟨"200", "d2", "t2", "m2", "c2"⟩, ⟨"300", "d4", "t4", "m4", "c4"⟩]
     (by decide) (by decide) (by decide) (by decide)
     ⟨⟨"200", "d2", "t2", "m2", "c2"⟩, by decide, by decide⟩⟩

end Fritz

